import Mathlib

/-!
Verification of the libnih file-watching subsystem (`nih/file.c`).

The development shallowly embeds the watch registry, the inotify event
demultiplexer, the recursive directory walker, the directory-tree watcher
and the memory-map utility, and proves the specified properties about them.

Machine integers are modelled as `Nat` (bitmasks) and `Int` (watch
descriptors, `-1` meaning invalid); byte buffers are `List Nat`.
-/

set_option autoImplicit false

namespace Nih

/-! ### inotify constants

Values are the Linux inotify ABI as provided by `sys/inotify.h`
(or the repository's fallback copy `nih/inotify.h`). -/

def IN_ACCESS : Nat := 0x00000001
def IN_MODIFY : Nat := 0x00000002
def IN_ATTRIB : Nat := 0x00000004
def IN_MOVED_FROM : Nat := 0x00000040
def IN_MOVED_TO : Nat := 0x00000080
def IN_CREATE : Nat := 0x00000100
def IN_DELETE : Nat := 0x00000200
def IN_DELETE_SELF : Nat := 0x00000400
def IN_MOVE_SELF : Nat := 0x00000800
def IN_IGNORED : Nat := 0x00008000

/-- `IN_MOVE` is the union `IN_MOVED_FROM | IN_MOVED_TO`. -/
def IN_MOVE : Nat := IN_MOVED_FROM ||| IN_MOVED_TO

/-- `DIR_EVENTS` from `nih/file.c`:
`IN_CREATE | IN_DELETE | IN_MODIFY | IN_MOVE | IN_MOVE_SELF`. -/
def DIR_EVENTS : Nat := IN_CREATE ||| IN_DELETE ||| IN_MODIFY ||| IN_MOVE ||| IN_MOVE_SELF

/-! ### Watch registry state

An `NihFileWatch` is an entry of the global `file_watches` list.  The heap
holds every allocated watch structure; `linked` records membership in the
`file_watches` list (storage outlives unlinking, per `nih_file_remove_watch`'s
"The structure itself is not freed").  `destructor` records whether the
default destructor (`nih_file_remove_watch`) is still attached; `parent`
is the nih_alloc parent (the id of an owning `NihDirWatch`, if any). -/

structure NihFileWatch where
  id : Nat
  wd : Int
  path : String
  parent : Option Nat
  destructor : Bool
  linked : Bool
  deriving Repr, DecidableEq

/-- Kernel-visible actions of the registry: `inotify_rm_watch wd`. -/
inductive KAct where
  | rm (wd : Int)
  deriving Repr, DecidableEq

/-- The registry state: all allocated `NihFileWatch` structures (the
`file_watches` list is the sublist of `linked` entries, in heap order),
plus the trace of kernel watch removals issued so far. -/
structure RegState where
  heap : List NihFileWatch
  kernel : List KAct
  deriving Repr, DecidableEq

/-- `nih_file_remove_watch` (file.c): if the watch's descriptor is already
invalid (`wd < 0`) do nothing; otherwise call `inotify_rm_watch`, set
`wd = -1` and unlink the entry from the `file_watches` list.  The storage
itself is not freed.  The watch is designated by its heap id. -/
def nih_file_remove_watch (st : RegState) (wid : Nat) : RegState :=
  match st.heap.find? (fun w => w.id = wid) with
  | none => st
  | some fw =>
    if fw.wd < 0 then st
    else
      { heap := st.heap.map (fun w =>
          if w.id = wid then { w with wd := -1, linked := false } else w),
        kernel := st.kernel ++ [KAct.rm fw.wd] }

/-! ### Event dispatch (`nih_file_reader`'s inner loop)

`NIH_LIST_FOREACH (file_watches, iter) { if (watch->wd != event->wd)
continue; watch->watcher (...); break; }` — only the first watch whose
descriptor matches the event's is called. -/

/-- First registered watch in the list whose descriptor equals the
event's watch descriptor (the `NIH_LIST_FOREACH`/`break` loop). -/
def nih_file_dispatch : List NihFileWatch → Int → Option NihFileWatch
  | [], _ => none
  | w :: ws, ewd => if w.wd = ewd then some w else nih_file_dispatch ws ewd

/-! ### Byte-level event decoding (`nih_file_reader`)

`struct inotify_event` is 16 bytes: `int32 wd; uint32 mask; uint32 cookie;
uint32 len;` followed by `len` name bytes.  Buffers are lists of bytes. -/

/-- Little-endian 32-bit field starting at byte offset `i` of `buf`
(missing bytes read as 0; the reader only decodes offsets it has
checked to be present). -/
def le32at (buf : List Nat) (i : Nat) : Nat :=
  buf.getD i 0 + 256 * (buf.getD (i + 1) 0 + 256 *
    (buf.getD (i + 2) 0 + 256 * buf.getD (i + 3) 0))

/-- The declared name length of the event starting at the head of `buf`:
the `len` field, at byte offset 12. -/
def evLen (buf : List Nat) : Nat := le32at buf 12

/-- Two's-complement reading of a 32-bit pattern, for the `int wd` field. -/
def toInt32 (n : Nat) : Int :=
  if n % 2 ^ 32 < 2 ^ 31 then (n % 2 ^ 32 : Int) else (n % 2 ^ 32 : Int) - 2 ^ 32

/-- A decoded `struct inotify_event` (with its trailing name bytes). -/
structure InotifyEvent where
  wd : Int
  mask : Nat
  cookie : Nat
  len : Nat
  name : List Nat
  deriving Repr, DecidableEq

/-- Decode the event occupying the whole chunk `c` (header + name bytes). -/
def decodeEvent (c : List Nat) : InotifyEvent :=
  { wd := toInt32 (le32at c 0)
    mask := le32at c 4
    cookie := le32at c 8
    len := evLen c
    name := c.drop 16 }

/-- One watcher invocation made during a demultiplex pass:
`watch->watcher (watch->data, watch, event->mask, event->cookie,
event->len ? event->name : NULL)`. -/
structure Invocation where
  watchId : Nat
  mask : Nat
  cookie : Nat
  name : Option (List Nat)
  deriving Repr, DecidableEq

/-- The dispatch a single decoded event gives rise to: the first watch
whose descriptor matches is called with the event's mask, cookie and
(when `len` is non-zero) name; with no match, nothing is called. -/
def dispatchInvocation (ws : List NihFileWatch) (ev : InotifyEvent) : List Invocation :=
  match nih_file_dispatch ws ev.wd with
  | some w => [{ watchId := w.id, mask := ev.mask, cookie := ev.cookie,
                 name := if ev.len ≠ 0 then some ev.name else none }]
  | none => []

/-- `nih_file_reader` (file.c): consume the buffer as a run of inotify
events.  If fewer bytes than one header remain, or fewer than the header
plus its declared name length, stop and leave the remainder buffered.
Otherwise consume the whole record, dispatch it to the first matching
watch, and continue.  Returns the invocations made and the unconsumed
remainder of the buffer. -/
def nih_file_reader (ws : List NihFileWatch) (buf : List Nat) :
    List Invocation × List Nat :=
  if _h16 : buf.length < 16 then ([], buf)
  else
    if _hsz : buf.length < 16 + evLen buf then ([], buf)
    else
      let invs := dispatchInvocation ws (decodeEvent (buf.take (16 + evLen buf)))
      let rest := nih_file_reader ws (buf.drop (16 + evLen buf))
      (invs ++ rest.1, rest.2)
  termination_by buf.length
  decreasing_by
    simp only [List.length_drop]
    omega

/-! ### Filesystem model and the directory walker (`nih_dir_walk`)

A filesystem node carries its `stat` mode and (when it is a directory)
its `readdir` listing in order.  In the model every `stat` succeeds and
`opendir` succeeds on directories, so the walker's silent-skip on a
failed `stat` never triggers. -/

def S_IFMT : Nat := 0xF000
def S_IFDIR : Nat := 0x4000
def S_IFREG : Nat := 0x8000

/-- A node of the modelled filesystem: `stat` mode plus directory entries. -/
inductive FSNode where
  | mk (mode : Nat) (entries : List (String × FSNode))
  deriving Repr

def modeOf : FSNode → Nat
  | .mk m _ => m

def entriesOf : FSNode → List (String × FSNode)
  | .mk _ es => es

/-- `S_ISDIR`. -/
def isDir (mode : Nat) : Prop := mode &&& S_IFMT = S_IFDIR

instance (mode : Nat) : Decidable (isDir mode) := by
  unfold isDir; infer_instance

mutual

/-- The `readdir` loop of `nih_dir_walk` (file.c).  `ret` is the loop's
current status value (initially 0).  For each entry: skip `.` and `..`;
build the subpath; skip it if the filter rejects it; call `visitor` when
the entry's mode intersects `types`, breaking on a negative status; then
recurse into it when it is a directory, again breaking on a negative
status. -/
def nih_dir_walk_entries {σ : Type} (types : Nat) (filter : String → Bool)
    (visitor : σ → String → σ × Int) (path : String) :
    List (String × FSNode) → σ → Int → σ × Int
  | [], s, ret => (s, ret)
  | (nm, child) :: rest, s, ret =>
    if nm = "." ∨ nm = ".." then
      nih_dir_walk_entries types filter visitor path rest s ret
    else
      let subpath := path ++ "/" ++ nm
      if filter subpath then
        nih_dir_walk_entries types filter visitor path rest s ret
      else
        if modeOf child &&& types ≠ 0 then
          let sr := visitor s subpath
          if sr.2 < 0 then sr
          else if isDir (modeOf child) then
            let sr2 := nih_dir_walk_node types filter visitor subpath child sr.1
            if sr2.2 < 0 then sr2
            else nih_dir_walk_entries types filter visitor path rest sr2.1 sr2.2
          else nih_dir_walk_entries types filter visitor path rest sr.1 sr.2
        else
          if isDir (modeOf child) then
            let sr2 := nih_dir_walk_node types filter visitor subpath child s
            if sr2.2 < 0 then sr2
            else nih_dir_walk_entries types filter visitor path rest sr2.1 sr2.2
          else nih_dir_walk_entries types filter visitor path rest s ret
  termination_by l _ _ => sizeOf l

/-- `nih_dir_walk` (file.c) on the modelled tree rooted at `path`:
`opendir` fails (status −1) unless the node is a directory; otherwise
iterate its entries with status initialised to 0. -/
def nih_dir_walk_node {σ : Type} (types : Nat) (filter : String → Bool)
    (visitor : σ → String → σ × Int) (path : String) : FSNode → σ → σ × Int
  | FSNode.mk m entries, s =>
    if ¬ isDir m then (s, -1)
    else nih_dir_walk_entries types filter visitor path entries s 0
  termination_by node _ => sizeOf node

end

mutual

/-- Remove from a listing every entry whose full path the filter rejects,
recursively. -/
def pruneEntries (filter : String → Bool) (path : String) :
    List (String × FSNode) → List (String × FSNode)
  | [] => []
  | (nm, child) :: rest =>
    if filter (path ++ "/" ++ nm) then pruneEntries filter path rest
    else (nm, prune filter (path ++ "/" ++ nm) child) :: pruneEntries filter path rest
  termination_by l => sizeOf l

/-- The tree with every filtered path (and hence its whole subtree)
removed. -/
def prune (filter : String → Bool) (path : String) : FSNode → FSNode
  | FSNode.mk m entries => FSNode.mk m (pruneEntries filter path entries)
  termination_by node => sizeOf node

end

/-! ### Directory tree watcher (`nih_dir_watcher` and friends) -/

/-- An `NihDirWatch`: root path, recursion flag, filter and which of the
three handlers were supplied (a NULL C filter is modelled as the
constantly-false predicate, which `nih_dir_watcher` treats identically). -/
structure NihDirWatch where
  id : Nat
  path : String
  subdirs : Bool
  filter : String → Bool
  has_create : Bool
  has_modify : Bool
  has_delete : Bool

/-- A handler invocation made by the tree watcher. -/
inductive HCall where
  | create (path : String)
  | modify (path : String)
  | delete (path : Option String)
  deriving Repr, DecidableEq

/-- Modelled from the spec: `nih_free` of an `NihDirWatch` — the
hierarchical allocator (`nih/alloc.c`) is not under `src/`.  Per the
spec's §6/§9, freeing a parent destroys every child block, invoking each
child's attached pre-destruction hook first; a child `NihFileWatch`
retains `nih_file_remove_watch` as its destructor, which issues the
kernel removal exactly when the descriptor is still valid.  Net effect:
every watch owned by `dwId` leaves the heap, and one kernel removal is
issued per owned watch whose destructor is attached and descriptor
valid. -/
def nih_free_dir_watch (st : RegState) (dwId : Nat) : RegState :=
  { heap := st.heap.filter (fun w => w.parent != some dwId),
    kernel := st.kernel ++
      ((st.heap.filter (fun w =>
          w.parent == some dwId && w.destructor && decide (0 ≤ w.wd))).map
        (fun w => KAct.rm w.wd)) }

/-- `nih_dir_watcher` (file.c).  `fw` is the watch the event arrived on,
`sub` is the result of `stat` on the event's full path (the subtree
rooted there, when the path exists).  Returns the new registry state, the
handler calls made, and the paths for which new watches are requested
(`nih_dir_add_file_watch` on the new directory and on every directory
discovered by walking it). -/
def nih_dir_watcher (st : RegState) (dw : NihDirWatch) (fw : NihFileWatch)
    (events : Nat) (name : Option String) (sub : Option FSNode) :
    RegState × List HCall × List String :=
  if events &&& IN_IGNORED ≠ 0 ∨ events &&& IN_MOVE_SELF ≠ 0 then
    if fw.path = dw.path then
      -- Top-level directory gone: call the delete handler with NULL,
      -- then free the whole dir watch (cascading over its children).
      (nih_free_dir_watch st dw.id,
       if dw.has_delete then [HCall.delete none] else [], [])
    else
      -- A lower-level directory has gone away; check whether another
      -- listed watch still uses the same descriptor.
      let found := st.heap.any (fun w => w.linked && w.id != fw.id && w.wd == fw.wd)
      if found then
        -- Destructor disabled, entry unlinked and freed: no kernel action.
        ({ st with heap := st.heap.filter (fun w => w.id != fw.id) }, [], [])
      else
        -- Remove the kernel watch, then free the entry (its destructor,
        -- run again by nih_free, is a no-op on the now-invalid wd).
        let st1 := nih_file_remove_watch st fw.id
        ({ st1 with heap := st1.heap.filter (fun w => w.id != fw.id) }, [], [])
  else
    match name with
    | none => (st, [], [])   -- nih_assert (name != NULL); never reached
    | some n =>
      let path := fw.path ++ "/" ++ n
      if dw.filter path then (st, [], [])
      else if events &&& IN_CREATE ≠ 0 ∨ events &&& IN_MOVED_TO ≠ 0 then
        let calls := if dw.has_create then [HCall.create path] else []
        let installs :=
          if dw.subdirs then
            match sub with
            | some node =>
              if isDir (modeOf node) then
                path :: (nih_dir_walk_node S_IFDIR dw.filter
                  (fun (acc : List String) p => (acc ++ [p], 0)) path node []).1
              else []
            | none => []
          else []
        (st, calls, installs)
      else if events &&& IN_MODIFY ≠ 0 then
        (st, if dw.has_modify then [HCall.modify path] else [], [])
      else if events &&& IN_DELETE ≠ 0 ∨ events &&& IN_MOVED_FROM ≠ 0 then
        (st, if dw.has_delete then [HCall.delete (some path)] else [], [])
      else (st, [], [])

/-- `nih_dir_add_file_watch` (file.c): try to add a watch for `path`
(`addOk` stands for the outcome of the underlying `nih_file_add_watch`
call); on failure only emit a warning.  Returns the warnings emitted and
the visitor status, which is always 0. -/
def nih_dir_add_file_watch (addOk : Bool) (path : String) : List String × Int :=
  if addOk then ([], 0)
  else ([path ++ ": Unable to watch directory"], 0)

/-- The construction-time / discovery-time walk visitor: applies
`nih_dir_add_file_watch` to each discovered subdirectory (`addOk p`
standing for whether the kernel accepts the watch on `p`), accumulating
the (path, mask) install requests of the successful adds and the
warnings of the failed ones. -/
def addWatchVisitor (addOk : String → Bool)
    (acc : List (String × Nat) × List String) (p : String) :
    (List (String × Nat) × List String) × Int :=
  ((acc.1 ++ (if addOk p then [(p, DIR_EVENTS)] else []),
    acc.2 ++ (nih_dir_add_file_watch (addOk p) p).1),
   (nih_dir_add_file_watch (addOk p) p).2)

/-- `nih_dir_add_watch` (file.c): fail unless the root is a directory;
install the root watch with mask `DIR_EVENTS` (failure of this install
aborts construction); if `subdirs`, walk the tree with type mask
`S_IFDIR`, attempting one watch per unfiltered subdirectory via
`nih_dir_add_file_watch`, and abort construction if the walk itself
fails.  Returns the (path, mask) install requests together with the
warnings emitted, or `none` on failure. -/
def nih_dir_add_watch (fs : FSNode) (path : String) (subdirs : Bool)
    (filter : String → Bool) (addOk : String → Bool) :
    Option (List (String × Nat) × List String) :=
  if ¬ isDir (modeOf fs) then none
  else if ¬ addOk path then none
  else
    if subdirs then
      let wr := nih_dir_walk_node S_IFDIR filter (addWatchVisitor addOk)
        path fs ([(path, DIR_EVENTS)], [])
      if wr.2 < 0 then none
      else some wr.1
    else some ([(path, DIR_EVENTS)], [])

/-! ### Memory-map utility (`nih_file_map`) -/

def O_RDONLY : Nat := 0
def O_RDWR : Nat := 2
def O_ACCMODE : Nat := 3
def PROT_READ : Nat := 1
def PROT_WRITE : Nat := 2

/-- Outcomes of the system calls `nih_file_map` makes (the OS boundary):
the descriptor `open` returns, the size `fstat` reports, and the address
`mmap` returns for a given protection and length. -/
structure MapOracle where
  openR : Option Nat
  statR : Option Nat
  mmapR : Nat → Nat → Option Nat

/-- What `nih_file_map` did: its return value, whether a SystemError was
raised, which descriptors were closed before returning, and the final
value of the caller's `*length` cell. -/
structure MapResult where
  result : Option Nat
  raised : Bool
  closed : List Nat
  lengthCell : Nat
  deriving Repr, DecidableEq

/-- The mmap protection derived from the open flags:
`PROT_READ`, plus `PROT_WRITE` when opened read-write. -/
def protOf (flags : Nat) : Nat :=
  PROT_READ ||| (if flags &&& O_ACCMODE = O_RDWR then PROT_WRITE else 0)

/-- `nih_file_map` (file.c): open, fstat, write `*length`, mmap; raise a
SystemError and return NULL on any failure; close the descriptor on every
path after a successful open.  `len0` is the initial value of the
caller's length cell. -/
def nih_file_map (o : MapOracle) (flags : Nat) (len0 : Nat) : MapResult :=
  match o.openR with
  | none => { result := none, raised := true, closed := [], lengthCell := len0 }
  | some fd =>
    match o.statR with
    | none => { result := none, raised := true, closed := [fd], lengthCell := len0 }
    | some size =>
      match o.mmapR (protOf flags) size with
      | none => { result := none, raised := true, closed := [fd], lengthCell := size }
      | some ptr =>
        { result := some ptr, raised := false, closed := [fd], lengthCell := size }

/-! ## Helper lemmas -/

/-- The update `nih_file_remove_watch` performs commutes with looking the
watch up by id. -/
lemma find?_update (l : List NihFileWatch) (i : Nat) :
    (l.map (fun w => if w.id = i then { w with wd := -1, linked := false } else w)).find?
        (fun w => w.id = i)
      = (l.find? (fun w => w.id = i)).map
          (fun w => { w with wd := -1, linked := false }) := by
  induction l with
  | nil => rfl
  | cons w l ih =>
    by_cases h : w.id = i
    · simp [List.find?, h]
    · simp [List.find?, h, ih]

/-- Updating the entry with id `i` and then dropping it is the same as
just dropping it. -/
lemma filter_update (l : List NihFileWatch) (i : Nat) :
    (l.map (fun w => if w.id = i then { w with wd := -1, linked := false } else w)).filter
        (fun w => w.id != i)
      = l.filter (fun w => w.id != i) := by
  induction l with
  | nil => rfl
  | cons w l ih =>
    by_cases h : w.id = i
    · simp [List.filter, h, ih]
    · simp [List.filter, h, ih]

lemma getD_take_of_lt (l : List Nat) (n i d : Nat) (h : i < n) :
    (l.take n).getD i d = l.getD i d := by
  simp [List.getD, List.getElem?_take, h]

lemma modeOf_prune (f : String → Bool) (p : String) (node : FSNode) :
    modeOf (prune f p node) = modeOf node := by
  cases node
  simp [prune, modeOf]

/-- Walking with a filter is walking the pruned tree with no filter: a
filtered path is neither visited nor descended into.  Joint strong
induction on the size of the listing / node. -/
lemma walk_prune_aux {σ : Type} (types : Nat) (f : String → Bool)
    (visitor : σ → String → σ × Int) :
    ∀ n : Nat,
      (∀ (path : String) (l : List (String × FSNode)), sizeOf l ≤ n →
        ∀ (s : σ) (ret : Int),
          nih_dir_walk_entries types f visitor path l s ret
            = nih_dir_walk_entries types (fun _ => false) visitor path
                (pruneEntries f path l) s ret)
    ∧ (∀ (path : String) (node : FSNode), sizeOf node ≤ n → ∀ s : σ,
          nih_dir_walk_node types f visitor path node s
            = nih_dir_walk_node types (fun _ => false) visitor path
                (prune f path node) s) := by
  intro n
  induction n using Nat.strong_induction_on with
  | _ n ih =>
    constructor
    · intro path l hl s ret
      rcases l with _ | ⟨⟨nm, child⟩, rest⟩
      · simp [nih_dir_walk_entries, pruneEntries]
      · have hsz : sizeOf ((nm, child) :: rest)
            = 1 + (1 + sizeOf nm + sizeOf child) + sizeOf rest := by
          simp
        have hrest : sizeOf rest < n := by omega
        have hchild : sizeOf child < n := by omega
        have IHrest := (ih (sizeOf rest) hrest).1 path rest le_rfl
        have IHchild := (ih (sizeOf child) hchild).2 (path ++ "/" ++ nm) child le_rfl
        by_cases hdot : nm = "." ∨ nm = ".."
        · by_cases hfil : f (path ++ "/" ++ nm) = true
          · have hpr : pruneEntries f path ((nm, child) :: rest)
                = pruneEntries f path rest := by
              simp only [pruneEntries, if_pos hfil]
            rw [hpr]
            simp only [nih_dir_walk_entries]
            rw [if_pos hdot]
            exact IHrest s ret
          · have hpr : pruneEntries f path ((nm, child) :: rest)
                = (nm, prune f (path ++ "/" ++ nm) child) :: pruneEntries f path rest := by
              simp only [pruneEntries, if_neg hfil]
            rw [hpr]
            simp only [nih_dir_walk_entries]
            rw [if_pos hdot, if_pos hdot]
            exact IHrest s ret
        · by_cases hfil : f (path ++ "/" ++ nm) = true
          · have hpr : pruneEntries f path ((nm, child) :: rest)
                = pruneEntries f path rest := by
              simp only [pruneEntries, if_pos hfil]
            rw [hpr]
            simp only [nih_dir_walk_entries]
            rw [if_neg hdot, if_pos hfil]
            exact IHrest s ret
          · have hpr : pruneEntries f path ((nm, child) :: rest)
                = (nm, prune f (path ++ "/" ++ nm) child) :: pruneEntries f path rest := by
              simp only [pruneEntries, if_neg hfil]
            rw [hpr]
            simp only [nih_dir_walk_entries]
            rw [if_neg hdot, if_neg hdot, if_neg hfil]
            simp only [Bool.false_eq_true, if_false]
            rw [modeOf_prune]
            simp only [IHchild, IHrest]
    · intro path node hn s
      rcases node with ⟨m, entries⟩
      have hsz : sizeOf (FSNode.mk m entries) = 1 + sizeOf m + sizeOf entries := by
        simp
      have hent : sizeOf entries < n := by omega
      have hpr : prune f path (FSNode.mk m entries)
          = FSNode.mk m (pruneEntries f path entries) := by
        simp only [prune]
      rw [hpr]
      simp only [nih_dir_walk_node]
      by_cases hd : isDir m
      · rw [if_neg (not_not_intro hd), if_neg (not_not_intro hd)]
        exact (ih (sizeOf entries) hent).1 path entries le_rfl s 0
      · rw [if_pos hd, if_pos hd]

/-- With a visitor whose status is never negative, the walk never aborts:
its status stays non-negative (on a directory root). -/
lemma walk_status_aux {σ : Type} (types : Nat) (f : String → Bool)
    (visitor : σ → String → σ × Int) (hv : ∀ s p, 0 ≤ (visitor s p).2) :
    ∀ n : Nat,
      (∀ (path : String) (l : List (String × FSNode)), sizeOf l ≤ n →
        ∀ (s : σ) (ret : Int), 0 ≤ ret →
          0 ≤ (nih_dir_walk_entries types f visitor path l s ret).2)
    ∧ (∀ (path : String) (node : FSNode), sizeOf node ≤ n →
        isDir (modeOf node) → ∀ s : σ,
          0 ≤ (nih_dir_walk_node types f visitor path node s).2) := by
  intro n
  induction n using Nat.strong_induction_on with
  | _ n ih =>
    constructor
    · intro path l hl s ret hret
      rcases l with _ | ⟨⟨nm, child⟩, rest⟩
      · simpa [nih_dir_walk_entries] using hret
      · have hsz : sizeOf ((nm, child) :: rest)
            = 1 + (1 + sizeOf nm + sizeOf child) + sizeOf rest := by
          simp
        have hrest : sizeOf rest < n := by omega
        have hchild : sizeOf child < n := by omega
        have IHrest := (ih (sizeOf rest) hrest).1 path rest le_rfl
        have IHchild := (ih (sizeOf child) hchild).2 (path ++ "/" ++ nm) child le_rfl
        simp only [nih_dir_walk_entries]
        by_cases hdot : nm = "." ∨ nm = ".."
        · rw [if_pos hdot]
          exact IHrest s ret hret
        · rw [if_neg hdot]
          by_cases hfil : f (path ++ "/" ++ nm) = true
          · rw [if_pos hfil]
            exact IHrest s ret hret
          · rw [if_neg hfil]
            by_cases htyp : modeOf child &&& types ≠ 0
            · rw [if_pos htyp]
              rw [if_neg (not_lt.mpr (hv s (path ++ "/" ++ nm)))]
              by_cases hd : isDir (modeOf child)
              · rw [if_pos hd]
                rw [if_neg (not_lt.mpr (IHchild hd (visitor s (path ++ "/" ++ nm)).1))]
                exact IHrest _ _ (IHchild hd (visitor s (path ++ "/" ++ nm)).1)
              · rw [if_neg hd]
                exact IHrest _ _ (hv s (path ++ "/" ++ nm))
            · rw [if_neg htyp]
              by_cases hd : isDir (modeOf child)
              · rw [if_pos hd]
                rw [if_neg (not_lt.mpr (IHchild hd s))]
                exact IHrest _ _ (IHchild hd s)
              · rw [if_neg hd]
                exact IHrest s ret hret
    · intro path node hn hd s
      rcases node with ⟨m, entries⟩
      have hsz : sizeOf (FSNode.mk m entries) = 1 + sizeOf m + sizeOf entries := by
        simp
      have hent : sizeOf entries < n := by omega
      simp only [nih_dir_walk_node]
      rw [if_neg (not_not_intro (by simpa [modeOf] using hd))]
      exact (ih (sizeOf entries) hent).1 path entries le_rfl s 0 le_rfl

/-- `nih_dir_add_file_watch` always reports success to the walker. -/
lemma add_file_watch_ret (ok : Bool) (p : String) :
    (nih_dir_add_file_watch ok p).2 = 0 := by
  cases ok <;> rfl

/-- `addWatchVisitor` never reports a negative status. -/
lemma addWatchVisitor_status (addOk : String → Bool)
    (s : List (String × Nat) × List String) (p : String) :
    0 ≤ (addWatchVisitor addOk s p).2 := by
  simp [addWatchVisitor, add_file_watch_ret]

/-- The construction walk only appends to the accumulated install
requests and warnings. -/
lemma walk_addwatch_acc_aux (types : Nat) (f : String → Bool)
    (addOk : String → Bool) :
    ∀ n : Nat,
      (∀ (path : String) (l : List (String × FSNode)), sizeOf l ≤ n →
        ∀ (s : List (String × Nat) × List String) (ret : Int),
          ∃ d w, (nih_dir_walk_entries types f (addWatchVisitor addOk) path l s ret).1
            = (s.1 ++ d, s.2 ++ w))
    ∧ (∀ (path : String) (node : FSNode), sizeOf node ≤ n →
        ∀ s : List (String × Nat) × List String,
          ∃ d w, (nih_dir_walk_node types f (addWatchVisitor addOk) path node s).1
            = (s.1 ++ d, s.2 ++ w)) := by
  intro n
  induction n using Nat.strong_induction_on with
  | _ n ih =>
    constructor
    · intro path l hl s ret
      rcases l with _ | ⟨⟨nm, child⟩, rest⟩
      · exact ⟨[], [], by simp [nih_dir_walk_entries]⟩
      · have hsz : sizeOf ((nm, child) :: rest)
            = 1 + (1 + sizeOf nm + sizeOf child) + sizeOf rest := by
          simp
        have hrest : sizeOf rest < n := by omega
        have hchild : sizeOf child < n := by omega
        have IHrest := (ih (sizeOf rest) hrest).1 path rest le_rfl
        have IHchild := (ih (sizeOf child) hchild).2 (path ++ "/" ++ nm) child le_rfl
        simp only [nih_dir_walk_entries]
        by_cases hdot : nm = "." ∨ nm = ".."
        · rw [if_pos hdot]
          exact IHrest s ret
        · rw [if_neg hdot]
          by_cases hfil : f (path ++ "/" ++ nm) = true
          · rw [if_pos hfil]
            exact IHrest s ret
          · rw [if_neg hfil]
            have hvis : addWatchVisitor addOk s (path ++ "/" ++ nm)
                = ((s.1 ++ (if addOk (path ++ "/" ++ nm)
                      then [(path ++ "/" ++ nm, DIR_EVENTS)] else []),
                    s.2 ++ (nih_dir_add_file_watch (addOk (path ++ "/" ++ nm))
                      (path ++ "/" ++ nm)).1),
                   (nih_dir_add_file_watch (addOk (path ++ "/" ++ nm))
                      (path ++ "/" ++ nm)).2) := rfl
            by_cases htyp : modeOf child &&& types ≠ 0
            · rw [if_pos htyp]
              rw [if_neg (not_lt.mpr (addWatchVisitor_status addOk s (path ++ "/" ++ nm)))]
              by_cases hd : isDir (modeOf child)
              · rw [if_pos hd]
                by_cases hneg :
                    (nih_dir_walk_node types f (addWatchVisitor addOk) (path ++ "/" ++ nm)
                      child (addWatchVisitor addOk s (path ++ "/" ++ nm)).1).2 < 0
                · rw [if_pos hneg]
                  obtain ⟨d1, w1, h1⟩ := IHchild (addWatchVisitor addOk s (path ++ "/" ++ nm)).1
                  refine ⟨(if addOk (path ++ "/" ++ nm) = true
                        then [(path ++ "/" ++ nm, DIR_EVENTS)] else []) ++ d1,
                      (nih_dir_add_file_watch (addOk (path ++ "/" ++ nm))
                        (path ++ "/" ++ nm)).1 ++ w1, ?_⟩
                  rw [h1, hvis]
                  simp
                · rw [if_neg hneg]
                  obtain ⟨d1, w1, h1⟩ := IHchild (addWatchVisitor addOk s (path ++ "/" ++ nm)).1
                  obtain ⟨d2, w2, h2⟩ := IHrest
                    (nih_dir_walk_node types f (addWatchVisitor addOk) (path ++ "/" ++ nm)
                      child (addWatchVisitor addOk s (path ++ "/" ++ nm)).1).1
                    (nih_dir_walk_node types f (addWatchVisitor addOk) (path ++ "/" ++ nm)
                      child (addWatchVisitor addOk s (path ++ "/" ++ nm)).1).2
                  refine ⟨(if addOk (path ++ "/" ++ nm) = true
                        then [(path ++ "/" ++ nm, DIR_EVENTS)] else []) ++ (d1 ++ d2),
                      (nih_dir_add_file_watch (addOk (path ++ "/" ++ nm))
                        (path ++ "/" ++ nm)).1 ++ (w1 ++ w2), ?_⟩
                  rw [h2, h1, hvis]
                  simp
              · rw [if_neg hd]
                obtain ⟨d2, w2, h2⟩ := IHrest (addWatchVisitor addOk s (path ++ "/" ++ nm)).1
                  (addWatchVisitor addOk s (path ++ "/" ++ nm)).2
                refine ⟨(if addOk (path ++ "/" ++ nm) = true
                      then [(path ++ "/" ++ nm, DIR_EVENTS)] else []) ++ d2,
                    (nih_dir_add_file_watch (addOk (path ++ "/" ++ nm))
                      (path ++ "/" ++ nm)).1 ++ w2, ?_⟩
                rw [h2, hvis]
                simp
            · rw [if_neg htyp]
              by_cases hd : isDir (modeOf child)
              · rw [if_pos hd]
                by_cases hneg :
                    (nih_dir_walk_node types f (addWatchVisitor addOk) (path ++ "/" ++ nm)
                      child s).2 < 0
                · rw [if_pos hneg]
                  exact IHchild s
                · rw [if_neg hneg]
                  obtain ⟨d1, w1, h1⟩ := IHchild s
                  obtain ⟨d2, w2, h2⟩ := IHrest
                    (nih_dir_walk_node types f (addWatchVisitor addOk) (path ++ "/" ++ nm)
                      child s).1
                    (nih_dir_walk_node types f (addWatchVisitor addOk) (path ++ "/" ++ nm)
                      child s).2
                  refine ⟨d1 ++ d2, w1 ++ w2, ?_⟩
                  rw [h2, h1]
                  simp
              · rw [if_neg hd]
                exact IHrest s ret
    · intro path node hn s
      rcases node with ⟨m, entries⟩
      have hsz : sizeOf (FSNode.mk m entries) = 1 + sizeOf m + sizeOf entries := by
        simp
      have hent : sizeOf entries < n := by omega
      simp only [nih_dir_walk_node]
      by_cases hd : isDir m
      · rw [if_neg (not_not_intro hd)]
        exact (ih (sizeOf entries) hent).1 path entries le_rfl s 0
      · rw [if_pos hd]
        exact ⟨[], [], by simp⟩

/-! ## Claims -/

/-- C1: a demultiplexed event is dispatched to at most one handle — the
first registered watch in the list whose descriptor matches receives the
callback (with the event's mask, cookie and optional name), later
matching watches receive nothing, an unmatched event is silently dropped,
and a matched event is never dropped. -/
theorem claim_C1_dispatch_first_match (ws : List NihFileWatch) (ev : InotifyEvent) :
    (∀ w, nih_file_dispatch ws ev.wd = some w →
      w.wd = ev.wd ∧ ∃ pre post, ws = pre ++ w :: post ∧ ∀ v ∈ pre, v.wd ≠ ev.wd)
  ∧ (∀ w, nih_file_dispatch ws ev.wd = some w →
      dispatchInvocation ws ev
        = [{ watchId := w.id, mask := ev.mask, cookie := ev.cookie,
             name := if ev.len ≠ 0 then some ev.name else none }])
  ∧ ((∀ w ∈ ws, w.wd ≠ ev.wd) → dispatchInvocation ws ev = [])
  ∧ ((∃ w ∈ ws, w.wd = ev.wd) → (nih_file_dispatch ws ev.wd).isSome = true) := by
  have hsome : ∀ (l : List NihFileWatch) (w : NihFileWatch),
      nih_file_dispatch l ev.wd = some w →
      w.wd = ev.wd ∧ ∃ pre post, l = pre ++ w :: post ∧ ∀ v ∈ pre, v.wd ≠ ev.wd := by
    intro l
    induction l with
    | nil => intro w h; simp [nih_file_dispatch] at h
    | cons a l ih =>
      intro w h
      rw [nih_file_dispatch] at h
      by_cases ha : a.wd = ev.wd
      · rw [if_pos ha] at h
        cases h
        exact ⟨ha, [], l, rfl, by simp⟩
      · rw [if_neg ha] at h
        obtain ⟨hw, pre, post, hsplit, hpre⟩ := ih w h
        refine ⟨hw, a :: pre, post, by simp [hsplit], ?_⟩
        intro v hv
        rcases List.mem_cons.mp hv with h1 | h2
        · rw [h1]; exact ha
        · exact hpre v h2
  have hnone : ∀ (l : List NihFileWatch), (∀ w ∈ l, w.wd ≠ ev.wd) →
      nih_file_dispatch l ev.wd = none := by
    intro l
    induction l with
    | nil => intro _; rfl
    | cons a l ih =>
      intro h
      rw [nih_file_dispatch, if_neg (h a (List.mem_cons_self a l))]
      exact ih (fun w hw => h w (List.mem_cons_of_mem a hw))
  refine ⟨hsome ws, ?_, ?_, ?_⟩
  · intro w h
    simp [dispatchInvocation, h]
  · intro h
    simp [dispatchInvocation, hnone ws h]
  · have hex : ∀ (l : List NihFileWatch), (∃ w ∈ l, w.wd = ev.wd) →
        (nih_file_dispatch l ev.wd).isSome = true := by
      intro l
      induction l with
      | nil => intro ⟨w, hw, _⟩; exact absurd hw (List.not_mem_nil w)
      | cons a l ih =>
        intro ⟨w, hw, hwd⟩
        rw [nih_file_dispatch]
        by_cases ha : a.wd = ev.wd
        · rw [if_pos ha]; rfl
        · rw [if_neg ha]
          rcases List.mem_cons.mp hw with h1 | h2
          · exact absurd (h1 ▸ hwd) ha
          · exact ih ⟨w, h2, hwd⟩
    exact hex ws

/-- A registry of three watches, the first two transiently sharing
descriptor 5 (concrete witness data). -/
def watchA : NihFileWatch :=
  { id := 1, wd := 5, path := "/tmp/w/a", parent := none, destructor := true, linked := true }

def watchB : NihFileWatch :=
  { id := 2, wd := 5, path := "/tmp/w/b", parent := none, destructor := true, linked := true }

def watchC : NihFileWatch :=
  { id := 3, wd := 7, path := "/tmp/w/c", parent := none, destructor := true, linked := true }

def eventWd5 : InotifyEvent :=
  { wd := 5, mask := IN_CREATE, cookie := 0, len := 2, name := [97, 0] }

theorem claim_C1_witness :
    dispatchInvocation [watchA, watchB, watchC] eventWd5
      = [{ watchId := 1, mask := IN_CREATE, cookie := 0, name := some [97, 0] }]
  ∧ ((∀ w ∈ [watchA, watchB, watchC], w.wd ≠ (9 : Int)) →
      dispatchInvocation [watchA, watchB, watchC] { eventWd5 with wd := 9 } = []) := by
  constructor
  · have h := (claim_C1_dispatch_first_match [watchA, watchB, watchC] eventWd5).2.1
      watchA (by decide)
    simpa [eventWd5, watchA, IN_CREATE] using h
  · exact (claim_C1_dispatch_first_match [watchA, watchB, watchC]
      { eventWd5 with wd := 9 }).2.2.1

/-- C4: releasing a low-level watch is idempotent and does not free its
storage: with an already-invalid (negative) descriptor it is a no-op, so
a second release of the same handle has no additional effect; with a
valid descriptor it issues one kernel removal and unlinks the entry,
while the storage stays allocated (with descriptor invalidated). -/
theorem claim_C4_remove_watch_idempotent (st : RegState) (wid : Nat) :
    (∀ fw, st.heap.find? (fun w => w.id = wid) = some fw → fw.wd < 0 →
      nih_file_remove_watch st wid = st)
  ∧ nih_file_remove_watch (nih_file_remove_watch st wid) wid
      = nih_file_remove_watch st wid
  ∧ (∀ fw, st.heap.find? (fun w => w.id = wid) = some fw → 0 ≤ fw.wd →
      (nih_file_remove_watch st wid).kernel = st.kernel ++ [KAct.rm fw.wd]
    ∧ (nih_file_remove_watch st wid).heap.find? (fun w => w.id = wid)
        = some { fw with wd := -1, linked := false }
    ∧ (nih_file_remove_watch st wid).heap.length = st.heap.length) := by
  have hval : ∀ fw, st.heap.find? (fun w => w.id = wid) = some fw → ¬ fw.wd < 0 →
      nih_file_remove_watch st wid
        = { heap := st.heap.map (fun w =>
              if w.id = wid then { w with wd := -1, linked := false } else w),
            kernel := st.kernel ++ [KAct.rm fw.wd] } := by
    intro fw hf hlt
    simp [nih_file_remove_watch, hf, hlt]
  refine ⟨?_, ?_, ?_⟩
  · intro fw hf hlt
    simp [nih_file_remove_watch, hf, hlt]
  · cases hf : st.heap.find? (fun w => w.id = wid) with
    | none =>
      have h1 : nih_file_remove_watch st wid = st := by
        simp [nih_file_remove_watch, hf]
      rw [h1]
      exact h1
    | some fw =>
      by_cases hlt : fw.wd < 0
      · have h1 : nih_file_remove_watch st wid = st := by
          simp [nih_file_remove_watch, hf, hlt]
        rw [h1]
        exact h1
      · have h1 := hval fw hf hlt
        have h2 : (nih_file_remove_watch st wid).heap.find? (fun w => w.id = wid)
            = some { fw with wd := -1, linked := false } := by
          rw [h1]
          simp only [find?_update]
          rw [hf]
          rfl
        rw [nih_file_remove_watch, h2]
        simp
  · intro fw hf hge
    have hlt : ¬ fw.wd < 0 := not_lt.mpr hge
    have h1 := hval fw hf hlt
    refine ⟨by rw [h1], ?_, by rw [h1]; simp⟩
    rw [h1]
    simp only [find?_update]
    rw [hf]
    rfl

/-- Concrete one-watch registry for release witnesses. -/
def regStateA : RegState := { heap := [watchA], kernel := [] }

theorem claim_C4_witness :
    nih_file_remove_watch (nih_file_remove_watch regStateA 1) 1
      = nih_file_remove_watch regStateA 1
  ∧ (nih_file_remove_watch regStateA 1).kernel = [] ++ [KAct.rm 5]
  ∧ (nih_file_remove_watch regStateA 1).heap.length = regStateA.heap.length := by
  have h := claim_C4_remove_watch_idempotent regStateA 1
  have h3 := h.2.2 watchA (by decide) (by decide)
  exact ⟨h.2.1, h3.1, h3.2.2⟩

/-- C9: `nih_file_map` fails with a raised SystemError and NULL result
whenever open, fstat or mmap fails, and on every path out of the function
after a successful open — success and failure alike — the descriptor has
been closed before returning. -/
theorem claim_C9_map_errors_and_close (o : MapOracle) (flags len0 : Nat) :
    (o.openR = none →
      nih_file_map o flags len0
        = { result := none, raised := true, closed := [], lengthCell := len0 })
  ∧ (∀ fd, o.openR = some fd → (nih_file_map o flags len0).closed = [fd])
  ∧ (o.statR = none → (nih_file_map o flags len0).result = none
      ∧ (nih_file_map o flags len0).raised = true)
  ∧ (∀ size, o.statR = some size → o.mmapR (protOf flags) size = none →
      (nih_file_map o flags len0).result = none
      ∧ (nih_file_map o flags len0).raised = true)
  ∧ (∀ fd size ptr, o.openR = some fd → o.statR = some size →
      o.mmapR (protOf flags) size = some ptr →
      nih_file_map o flags len0
        = { result := some ptr, raised := false, closed := [fd], lengthCell := size }) := by
  refine ⟨?_, ?_, ?_, ?_, ?_⟩
  · intro h; simp [nih_file_map, h]
  · intro fd h
    cases hs : o.statR with
    | none => simp [nih_file_map, h, hs]
    | some size =>
      cases hm : o.mmapR (protOf flags) size with
      | none => simp [nih_file_map, h, hs, hm]
      | some ptr => simp [nih_file_map, h, hs, hm]
  · intro hs
    cases ho : o.openR with
    | none => simp [nih_file_map, ho]
    | some fd => simp [nih_file_map, ho, hs]
  · intro size hs hm
    cases ho : o.openR with
    | none => simp [nih_file_map, ho]
    | some fd => simp [nih_file_map, ho, hs, hm]
  · intro fd size ptr ho hs hm
    simp [nih_file_map, ho, hs, hm]

/-- A run in which open and fstat succeed but mmap fails. -/
def mapOracleMmapFail : MapOracle :=
  { openR := some 7, statR := some 42, mmapR := fun _ _ => none }

theorem claim_C9_witness :
    (nih_file_map mapOracleMmapFail 0 0).closed = [7]
  ∧ (nih_file_map mapOracleMmapFail 0 0).result = none
  ∧ (nih_file_map mapOracleMmapFail 0 0).raised = true := by
  refine ⟨(claim_C9_map_errors_and_close mapOracleMmapFail 0 0).2.1 7 rfl, ?_⟩
  exact (claim_C9_map_errors_and_close mapOracleMmapFail 0 0).2.2.2.1 42 rfl rfl

/-- C10: the file size is written through the length out-parameter before
mmap is attempted, so when mmap fails after a successful fstat the
caller's length cell has been overwritten with the file's size. -/
theorem claim_C10_length_written_before_mmap (o : MapOracle) (flags len0 fd size : Nat)
    (hopen : o.openR = some fd) (hstat : o.statR = some size) :
    (nih_file_map o flags len0).lengthCell = size
  ∧ (o.mmapR (protOf flags) size = none →
      (nih_file_map o flags len0).result = none
      ∧ (nih_file_map o flags len0).lengthCell = size) := by
  cases hm : o.mmapR (protOf flags) size <;>
    simp [nih_file_map, hopen, hstat, hm]

theorem claim_C10_witness :
    (nih_file_map mapOracleMmapFail 0 5).lengthCell = 42
  ∧ (nih_file_map mapOracleMmapFail 0 5).result = none := by
  have h := claim_C10_length_written_before_mmap mapOracleMmapFail 0 5 7 42 rfl rfl
  exact ⟨h.1, (h.2 rfl).1⟩

/-- C2: an invalidated / moved-self event for a non-root subdirectory
watch scans every registered watch: if another listed watch shares the
kernel descriptor, only this bookkeeping entry is dropped and no kernel
removal is issued (the other entry keeps the real registration); if no
other watch shares the descriptor, the watch is released from the kernel
and the entry dropped.  No handler fires and no install is requested
either way. -/
theorem claim_C2_subdir_gone_shared_descriptor (st : RegState) (dw : NihDirWatch)
    (fw : NihFileWatch) (events : Nat) (name : Option String) (sub : Option FSNode)
    (hev : events &&& IN_IGNORED ≠ 0 ∨ events &&& IN_MOVE_SELF ≠ 0)
    (hpath : fw.path ≠ dw.path)
    (hfind : st.heap.find? (fun w => w.id = fw.id) = some fw)
    (hwd : 0 ≤ fw.wd) :
    (nih_dir_watcher st dw fw events name sub).2.1 = []
  ∧ (nih_dir_watcher st dw fw events name sub).2.2 = []
  ∧ (nih_dir_watcher st dw fw events name sub).1.heap
      = st.heap.filter (fun w => w.id != fw.id)
  ∧ (st.heap.any (fun w => w.linked && w.id != fw.id && w.wd == fw.wd) = true →
      (nih_dir_watcher st dw fw events name sub).1.kernel = st.kernel)
  ∧ (st.heap.any (fun w => w.linked && w.id != fw.id && w.wd == fw.wd) = false →
      (nih_dir_watcher st dw fw events name sub).1.kernel
        = st.kernel ++ [KAct.rm fw.wd]) := by
  have hrw : nih_file_remove_watch st fw.id
      = { heap := st.heap.map (fun w =>
            if w.id = fw.id then { w with wd := -1, linked := false } else w),
          kernel := st.kernel ++ [KAct.rm fw.wd] } := by
    simp [nih_file_remove_watch, hfind, not_lt.mpr hwd]
  simp only [nih_dir_watcher]
  rw [if_pos hev, if_neg hpath]
  by_cases hfound :
      (st.heap.any fun w => w.linked && w.id != fw.id && w.wd == fw.wd) = true
  · rw [if_pos hfound]
    refine ⟨rfl, rfl, rfl, fun _ => rfl, fun hfalse => ?_⟩
    rw [hfalse] at hfound
    cases hfound
  · rw [if_neg hfound]
    rw [hrw]
    exact ⟨rfl, rfl, filter_update st.heap fw.id, fun htrue => absurd htrue hfound,
      fun _ => rfl⟩

/-- The tree watch used in teardown witnesses. -/
def dirWatchA : NihDirWatch :=
  { id := 10, path := "/tmp/w", subdirs := true, filter := fun _ => false,
    has_create := true, has_modify := true, has_delete := true }

/-- Subdirectory watch whose descriptor 5 is shared with `watchB`. -/
theorem claim_C2_witness :
    (nih_dir_watcher { heap := [watchA, watchB], kernel := [] } dirWatchA watchA
        IN_IGNORED none none).2.1 = []
  ∧ (nih_dir_watcher { heap := [watchA, watchB], kernel := [] } dirWatchA watchA
        IN_IGNORED none none).1.heap
      = [watchA, watchB].filter (fun w => w.id != watchA.id)
  ∧ (nih_dir_watcher { heap := [watchA, watchB], kernel := [] } dirWatchA watchA
        IN_IGNORED none none).1.kernel = [] := by
  have h := claim_C2_subdir_gone_shared_descriptor
    { heap := [watchA, watchB], kernel := [] } dirWatchA watchA
    IN_IGNORED none none (Or.inl (by decide)) (by decide) (by decide) (by decide)
  exact ⟨h.1, h.2.2.1, h.2.2.2.1 (by decide)⟩

/-- C3: an invalidated / moved-self event for the root watch invokes the
delete handler exactly once with a NULL path (when one was supplied, and
not at all otherwise), then every watch owned by the tree watch is
released — a kernel removal is issued for each owned watch with an
attached destructor and valid descriptor — and the owned watch set
becomes empty. -/
theorem claim_C3_root_gone_teardown (st : RegState) (dw : NihDirWatch)
    (fw : NihFileWatch) (events : Nat) (name : Option String) (sub : Option FSNode)
    (hev : events &&& IN_IGNORED ≠ 0 ∨ events &&& IN_MOVE_SELF ≠ 0)
    (hpath : fw.path = dw.path) :
    (dw.has_delete = true →
      (nih_dir_watcher st dw fw events name sub).2.1 = [HCall.delete none])
  ∧ (dw.has_delete = false →
      (nih_dir_watcher st dw fw events name sub).2.1 = [])
  ∧ (∀ w ∈ (nih_dir_watcher st dw fw events name sub).1.heap,
      w.parent ≠ some dw.id)
  ∧ (∀ w ∈ st.heap, w.parent = some dw.id → w.destructor = true → 0 ≤ w.wd →
      KAct.rm w.wd ∈ (nih_dir_watcher st dw fw events name sub).1.kernel)
  ∧ (nih_dir_watcher st dw fw events name sub).2.2 = [] := by
  simp only [nih_dir_watcher]
  rw [if_pos hev, if_pos hpath]
  refine ⟨?_, ?_, ?_, ?_, rfl⟩
  · intro h; simp [h]
  · intro h; simp [h]
  · intro w hw
    simp only [nih_free_dir_watch, List.mem_filter] at hw
    simpa using hw.2
  · intro w hw hp hd hwd
    simp only [nih_free_dir_watch]
    refine List.mem_append.mpr (Or.inr ?_)
    exact List.mem_map.mpr ⟨w, List.mem_filter.mpr ⟨hw, by simp [hp, hd, hwd]⟩, rfl⟩

/-- Root watch and one owned subdirectory watch for the C3 witness. -/
def watchRoot : NihFileWatch :=
  { id := 1, wd := 5, path := "/tmp/w", parent := some 10, destructor := true,
    linked := true }

def watchChild : NihFileWatch :=
  { id := 2, wd := 6, path := "/tmp/w/d", parent := some 10, destructor := true,
    linked := true }

theorem claim_C3_witness :
    (nih_dir_watcher { heap := [watchRoot, watchChild], kernel := [] } dirWatchA
        watchRoot IN_MOVE_SELF none none).2.1 = [HCall.delete none]
  ∧ (∀ w ∈ (nih_dir_watcher { heap := [watchRoot, watchChild], kernel := [] }
        dirWatchA watchRoot IN_MOVE_SELF none none).1.heap,
      w.parent ≠ some dirWatchA.id)
  ∧ KAct.rm watchChild.wd
      ∈ (nih_dir_watcher { heap := [watchRoot, watchChild], kernel := [] }
          dirWatchA watchRoot IN_MOVE_SELF none none).1.kernel := by
  have h := claim_C3_root_gone_teardown
    { heap := [watchRoot, watchChild], kernel := [] } dirWatchA watchRoot
    IN_MOVE_SELF none none (Or.inr (by decide)) (by decide)
  refine ⟨h.1 rfl, h.2.2.1, ?_⟩
  exact h.2.2.2.1 watchChild (by decide) (by decide) rfl (by decide)

/-- Truncating a buffer beyond the header does not change the declared
name length (read from bytes 12–15). -/
lemma evLen_take (buf : List Nat) (n : Nat) (h : 16 ≤ n) :
    evLen (buf.take n) = evLen buf := by
  unfold evLen le32at
  rw [getD_take_of_lt _ _ _ _ (by omega), getD_take_of_lt _ _ _ _ (by omega),
      getD_take_of_lt _ _ _ _ (by omega), getD_take_of_lt _ _ _ _ (by omega)]

/-- C5: a demultiplex pass consumes the buffer as a run of complete
records — each a 16-byte header plus exactly its declared name length,
never partially interpreted — dispatching each one; it stops as soon as
fewer bytes remain than a complete header, or than the header plus its
declared name length, and leaves exactly those bytes buffered for a
later pass. -/
theorem claim_C5_reader_whole_records (ws : List NihFileWatch) (buf : List Nat) :
    ∃ chunks : List (List Nat),
      (∀ c ∈ chunks, c.length = 16 + evLen c)
    ∧ buf = chunks.flatten ++ (nih_file_reader ws buf).2
    ∧ (nih_file_reader ws buf).1
        = (chunks.map (fun c => dispatchInvocation ws (decodeEvent c))).flatten
    ∧ ((nih_file_reader ws buf).2.length < 16
        ∨ (nih_file_reader ws buf).2.length < 16 + evLen (nih_file_reader ws buf).2) := by
  suffices H : ∀ (n : Nat) (b : List Nat), b.length ≤ n →
      ∃ chunks : List (List Nat),
        (∀ c ∈ chunks, c.length = 16 + evLen c)
      ∧ b = chunks.flatten ++ (nih_file_reader ws b).2
      ∧ (nih_file_reader ws b).1
          = (chunks.map (fun c => dispatchInvocation ws (decodeEvent c))).flatten
      ∧ ((nih_file_reader ws b).2.length < 16
          ∨ (nih_file_reader ws b).2.length < 16 + evLen (nih_file_reader ws b).2) by
    exact H buf.length buf le_rfl
  intro n
  induction n with
  | zero =>
    intro b hb
    have hb0 : b = [] := List.length_eq_zero.mp (Nat.le_zero.mp hb)
    subst hb0
    have hr : nih_file_reader ws [] = ([], []) := by
      rw [nih_file_reader]
      simp
    exact ⟨[], by simp, by simp [hr], by simp [hr], Or.inl (by simp [hr])⟩
  | succ n ih =>
    intro b hb
    by_cases h16 : b.length < 16
    · have hr : nih_file_reader ws b = ([], b) := by
        rw [nih_file_reader, dif_pos h16]
      exact ⟨[], by simp, by simp [hr], by simp [hr], Or.inl (by simp [hr, h16])⟩
    · by_cases hsz : b.length < 16 + evLen b
      · have hr : nih_file_reader ws b = ([], b) := by
          rw [nih_file_reader, dif_neg h16, dif_pos hsz]
        exact ⟨[], by simp, by simp [hr], by simp [hr], Or.inr (by simp [hr, hsz])⟩
      · have hr : nih_file_reader ws b
            = (dispatchInvocation ws (decodeEvent (b.take (16 + evLen b)))
                ++ (nih_file_reader ws (b.drop (16 + evLen b))).1,
               (nih_file_reader ws (b.drop (16 + evLen b))).2) := by
          conv_lhs => rw [nih_file_reader]
          rw [dif_neg h16, dif_neg hsz]
        have hdrop : (b.drop (16 + evLen b)).length ≤ n := by
          rw [List.length_drop]
          omega
        obtain ⟨chunks, hc1, hc2, hc3, hc4⟩ := ih (b.drop (16 + evLen b)) hdrop
        refine ⟨b.take (16 + evLen b) :: chunks, ?_, ?_, ?_, ?_⟩
        · intro c hc
          rcases List.mem_cons.mp hc with h | h
          · subst h
            have hlen : (b.take (16 + evLen b)).length = 16 + evLen b := by
              rw [List.length_take]
              omega
            rw [hlen, evLen_take _ _ (by omega)]
          · exact hc1 c h
        · rw [hr]
          calc b = b.take (16 + evLen b) ++ b.drop (16 + evLen b) :=
                (List.take_append_drop _ _).symm
            _ = b.take (16 + evLen b)
                  ++ (chunks.flatten ++ (nih_file_reader ws (b.drop (16 + evLen b))).2) := by
                rw [← hc2]
            _ = (b.take (16 + evLen b) :: chunks).flatten
                  ++ (nih_file_reader ws (b.drop (16 + evLen b))).2 := by
                simp [List.flatten]
        · rw [hr]
          simp [hc3]
        · rw [hr]
          exact hc4

/-- A 20-byte buffer: one complete event (wd 5, mask `IN_CREATE`,
cookie 0, name length 2, name bytes "a\0") followed by 4 trailing bytes
of a next, incomplete record. -/
def bufferW : List Nat :=
  [5, 0, 0, 0, 0, 1, 0, 0, 0, 0, 0, 0, 2, 0, 0, 0, 97, 0, 1, 2]

theorem claim_C5_witness :
    ∃ chunks : List (List Nat),
      (∀ c ∈ chunks, c.length = 16 + evLen c)
    ∧ bufferW = chunks.flatten ++ (nih_file_reader [watchA] bufferW).2
    ∧ (nih_file_reader [watchA] bufferW).1
        = (chunks.map (fun c => dispatchInvocation [watchA] (decodeEvent c))).flatten
    ∧ ((nih_file_reader [watchA] bufferW).2.length < 16
        ∨ (nih_file_reader [watchA] bufferW).2.length
            < 16 + evLen (nih_file_reader [watchA] bufferW).2) :=
  claim_C5_reader_whole_records [watchA] bufferW

/-- Tree used to exhibit the filtering behaviour: root containing one
directory `d` which contains one regular file `x`. -/
def fsFiltered : FSNode :=
  .mk S_IFDIR [("d", .mk S_IFDIR [("x", .mk S_IFREG [])])]

/-- A filter rejecting exactly the path `r/d`. -/
def filterD : String → Bool := fun p => p == "r/d"

/-- C6 counterexample: with the filter rejecting only the directory
`r/d`, its unfiltered descendant `r/d/x` — of a type in the visit mask —
is never visited: the walk does not descend into a filtered directory,
contradicting the claim that traversal still descends into it unless the
filter excludes each descendant. -/
theorem claim_C6_counterexample :
    filterD "r/d" = true
  ∧ filterD "r/d/x" = false
  ∧ isDir (modeOf (FSNode.mk S_IFDIR [("x", FSNode.mk S_IFREG [])]))
  ∧ S_IFREG &&& (S_IFDIR ||| S_IFREG) ≠ 0
  ∧ (nih_dir_walk_node (S_IFDIR ||| S_IFREG) filterD
      (fun (acc : List String) p => (acc ++ [p], 0)) "r" fsFiltered []).1 = [] := by
  refine ⟨rfl, rfl, by decide, by decide, ?_⟩
  simp only [fsFiltered, filterD, nih_dir_walk_node, nih_dir_walk_entries, isDir,
    S_IFDIR, S_IFMT, S_IFREG]
  decide

/-- C6 (amended): a path the filter rejects triggers no create, modify or
delete handler and no watch install at event translation; and the walker
skips a filtered path entirely — neither visiting it nor descending into
it, so walking with a filter equals walking the filter-pruned tree with
no filter (exclusion of a directory thereby extends to its whole
subtree, rather than traversal descending into it). -/
theorem claim_C6_filter_literal :
    (∀ (st : RegState) (dw : NihDirWatch) (fw : NihFileWatch) (events : Nat)
        (nm : String) (sub : Option FSNode),
      dw.filter (fw.path ++ "/" ++ nm) = true →
      events &&& IN_IGNORED = 0 → events &&& IN_MOVE_SELF = 0 →
      nih_dir_watcher st dw fw events (some nm) sub = (st, [], []))
  ∧ (∀ (σ : Type) (types : Nat) (f : String → Bool)
        (visitor : σ → String → σ × Int) (path : String) (node : FSNode) (s : σ),
      nih_dir_walk_node types f visitor path node s
        = nih_dir_walk_node types (fun _ => false) visitor path
            (prune f path node) s) := by
  constructor
  · intro st dw fw events nm sub hfil hig hms
    simp only [nih_dir_watcher]
    rw [if_neg (by simp [hig, hms] :
      ¬(events &&& IN_IGNORED ≠ 0 ∨ events &&& IN_MOVE_SELF ≠ 0))]
    rw [if_pos hfil]
  · intro σ types f visitor path node s
    exact (walk_prune_aux types f visitor (sizeOf node)).2 path node le_rfl s

/-- Tree watch whose filter rejects `/tmp/w/secret` (for the C6 witness). -/
def dirWatchFiltered : NihDirWatch :=
  { id := 11, path := "/tmp/w", subdirs := true,
    filter := fun p => p == "/tmp/w/secret",
    has_create := true, has_modify := true, has_delete := true }

theorem claim_C6_witness :
    nih_dir_watcher regStateA dirWatchFiltered watchRoot IN_MODIFY
      (some "secret") none = (regStateA, [], [])
  ∧ nih_dir_walk_node (S_IFDIR ||| S_IFREG) filterD
      (fun (acc : List String) p => (acc ++ [p], 0)) "r" fsFiltered []
    = nih_dir_walk_node (S_IFDIR ||| S_IFREG) (fun _ => false)
        (fun (acc : List String) p => (acc ++ [p], 0)) "r"
        (prune filterD "r" fsFiltered) [] := by
  constructor
  · exact claim_C6_filter_literal.1 regStateA dirWatchFiltered watchRoot
      IN_MODIFY "secret" none (by decide) (by decide) (by decide)
  · exact claim_C6_filter_literal.2 (List String) (S_IFDIR ||| S_IFREG) filterD
      (fun acc p => (acc ++ [p], 0)) "r" fsFiltered []

/-- An empty watched root directory. -/
def fsRootOnly : FSNode := .mk S_IFDIR []

/-- C7 counterexample: constructing a tree watch installs the root watch
with mask `DIR_EVENTS`, and that mask does not contain `IN_IGNORED`
(watch invalidated) — so the mask does not request all seven claimed
event kinds. -/
theorem claim_C7_counterexample :
    nih_dir_add_watch fsRootOnly "/tmp/w" false (fun _ => false) (fun _ => true)
      = some ([("/tmp/w", DIR_EVENTS)], [])
  ∧ DIR_EVENTS &&& IN_IGNORED = 0 := by
  exact ⟨by decide, by decide⟩

/-- C7 (amended): constructing a directory tree watch installs a root
watch whose event mask is `DIR_EVENTS`, requesting exactly the six kinds
created, deleted, modified, moved-out, moved-in and moved-self;
invalidated (`IN_IGNORED`) is not part of the requested mask — the
kernel delivers it without it being requested. -/
theorem claim_C7_root_mask (fs : FSNode) (path : String) (subdirs : Bool)
    (filter : String → Bool) (addOk : String → Bool)
    (hdir : isDir (modeOf fs)) (hok : addOk path = true) :
    (∃ rest warns, nih_dir_add_watch fs path subdirs filter addOk
        = some ((path, DIR_EVENTS) :: rest, warns))
  ∧ DIR_EVENTS = IN_CREATE ||| IN_DELETE ||| IN_MODIFY ||| IN_MOVED_FROM
      ||| IN_MOVED_TO ||| IN_MOVE_SELF
  ∧ DIR_EVENTS &&& IN_CREATE ≠ 0
  ∧ DIR_EVENTS &&& IN_DELETE ≠ 0
  ∧ DIR_EVENTS &&& IN_MODIFY ≠ 0
  ∧ DIR_EVENTS &&& IN_MOVED_FROM ≠ 0
  ∧ DIR_EVENTS &&& IN_MOVED_TO ≠ 0
  ∧ DIR_EVENTS &&& IN_MOVE_SELF ≠ 0
  ∧ DIR_EVENTS &&& IN_IGNORED = 0 := by
  refine ⟨?_, by decide, by decide, by decide, by decide, by decide, by decide,
    by decide, by decide⟩
  simp only [nih_dir_add_watch]
  rw [if_neg (not_not_intro hdir), if_neg (by simp [hok])]
  cases subdirs with
  | false => exact ⟨[], [], rfl⟩
  | true =>
    rw [if_pos rfl]
    have hstat := (walk_status_aux S_IFDIR filter (addWatchVisitor addOk)
      (addWatchVisitor_status addOk) (sizeOf fs)).2 path fs le_rfl hdir
      ([(path, DIR_EVENTS)], [])
    rw [if_neg (not_lt.mpr hstat)]
    obtain ⟨d, w, hacc⟩ := (walk_addwatch_acc_aux S_IFDIR filter addOk
      (sizeOf fs)).2 path fs le_rfl ([(path, DIR_EVENTS)], [])
    refine ⟨d, w, ?_⟩
    rw [Prod.ext_iff] at hacc
    have : (nih_dir_walk_node S_IFDIR filter (addWatchVisitor addOk) path fs
        ([(path, DIR_EVENTS)], [])).1
        = ((path, DIR_EVENTS) :: d, w) := by
      rw [Prod.ext_iff]
      simpa using hacc
    rw [this]

theorem claim_C7_witness :
    (∃ rest warns,
      nih_dir_add_watch fsRootOnly "/tmp/w" true (fun _ => false) (fun _ => true)
        = some (("/tmp/w", DIR_EVENTS) :: rest, warns))
  ∧ DIR_EVENTS &&& IN_IGNORED = 0 := by
  have h := claim_C7_root_mask fsRootOnly "/tmp/w" true (fun _ => false)
    (fun _ => true) (by decide) rfl
  exact ⟨h.1, h.2.2.2.2.2.2.2.2⟩

/-- C8: a failure to install a watch on an individual subdirectory is
downgraded to a warning: `nih_dir_add_file_watch` warns exactly on
failure yet always reports success (status 0), so the construction or
discovery walk never aborts — it completes with a non-negative status on
any directory root — and `nih_dir_add_watch` in particular never fails
because an individual subdirectory watch could not be installed. -/
theorem claim_C8_subdir_watch_failure_soft (addOk : String → Bool)
    (ok : Bool) (p : String) :
    (nih_dir_add_file_watch ok p).2 = 0
  ∧ ((nih_dir_add_file_watch ok p).1 = [] ↔ ok = true)
  ∧ (∀ (fs : FSNode) (path : String) (f : String → Bool)
        (s : List (String × Nat) × List String),
      isDir (modeOf fs) →
      0 ≤ (nih_dir_walk_node S_IFDIR f (addWatchVisitor addOk) path fs s).2)
  ∧ (∀ (fs : FSNode) (path : String) (f : String → Bool),
      isDir (modeOf fs) → addOk path = true →
      (nih_dir_add_watch fs path true f addOk).isSome = true) := by
  refine ⟨add_file_watch_ret ok p, ?_, ?_, ?_⟩
  · cases ok <;> simp [nih_dir_add_file_watch]
  · intro fs path f s hdir
    exact (walk_status_aux S_IFDIR f (addWatchVisitor addOk)
      (addWatchVisitor_status addOk) (sizeOf fs)).2 path fs le_rfl hdir s
  · intro fs path f hdir hok
    simp only [nih_dir_add_watch]
    rw [if_neg (not_not_intro hdir), if_neg (by simp [hok]), if_pos trivial]
    have hstat := (walk_status_aux S_IFDIR f (addWatchVisitor addOk)
      (addWatchVisitor_status addOk) (sizeOf fs)).2 path fs le_rfl hdir
      ([(path, DIR_EVENTS)], [])
    rw [if_neg (not_lt.mpr hstat)]
    rfl

/-- Root with one subdirectory, used to witness construction surviving a
failed subdirectory watch. -/
def fsWithSub : FSNode := .mk S_IFDIR [("d", .mk S_IFDIR [])]

theorem claim_C8_witness :
    (nih_dir_add_file_watch false "/tmp/w/d").2 = 0
  ∧ (nih_dir_add_watch fsWithSub "/tmp/w" true (fun _ => false)
      (fun p => p == "/tmp/w")).isSome = true := by
  have h := claim_C8_subdir_watch_failure_soft (fun p => p == "/tmp/w")
    false "/tmp/w/d"
  exact ⟨h.1, h.2.2.2 fsWithSub "/tmp/w" (fun _ => false) (by decide) (by decide)⟩

end Nih
